import Mathlib

/-!
Verification of the sqlite-backed vector stores of langchain-rust
(`src/vectorstore/sqlite_hybrid`, `sqlite_vec`, `sqlite_bm25`, `sqlite_vss`).

The Rust stores keep a primary SQLite row table together with a vector
shadow index (a `vec0` virtual table) and, for the hybrid/vss variants, a
lexical shadow index (an `fts5` virtual table), synchronized by triggers or
by explicit dual writes inside one transaction.  This file gives a shallow
embedding of those operations: SQLite tables become Lean lists of rows,
transactions become pure state-transformer functions that return the
committed state (the prior state when the transaction rolls back), and the
embedding / language-model collaborators become explicit `Except`-valued
arguments.  Scores and distances are modelled over `ℚ` (the Rust code uses
`f64`; the claims under study concern formula shape and ordering, not
rounding).  Metadata maps (`HashMap<String, Value>`) are modelled as
association lists.
-/

/-- `serde_json::Value` restricted to the shapes the stores' filter
compilers case on: null, booleans, numbers (modelled as integers), strings
and arrays.  The Rust `_ =>` catch-all arm is represented by `jNull`. -/
inductive JVal where
  | jNull
  | jBool (b : Bool)
  | jNum (n : Int)
  | jStr (s : String)
  | jArr (xs : List JVal)

-- Structural boolean equality on `JVal` (nested recursion through the
-- array payload, so `deriving` is unavailable and it is written by hand).
mutual
def JVal.beq : JVal → JVal → Bool
  | .jNull, .jNull => true
  | .jBool a, .jBool b => a == b
  | .jNum a, .jNum b => a == b
  | .jStr a, .jStr b => a == b
  | .jArr xs, .jArr ys => JVal.beqList xs ys
  | _, _ => false

def JVal.beqList : List JVal → List JVal → Bool
  | [], [] => true
  | x :: xs, y :: ys => JVal.beq x y && JVal.beqList xs ys
  | _, _ => false
end

instance : BEq JVal := ⟨JVal.beq⟩

/-- A double-quote character as a string (written via its code point so the
file stays free of quote-escape noise). -/
def dq : String := String.singleton (Char.ofNat 34)

/-- A single-quote character as a string. -/
def squote : String := String.singleton (Char.ofNat 39)

/-- A backslash character as a string. -/
def bsl : String := String.singleton (Char.ofNat 92)

/-- JSON string escaping as `serde_json` performs it for the characters
relevant here: double quote, backslash, newline, carriage return, tab.
(`serde_json` additionally escapes other control characters with a
unicode escape; that case is not load-bearing for any claim and is left
as the identity.) -/
def escapeChar (c : Char) : String :=
  if c = Char.ofNat 34 then bsl ++ dq
  else if c = Char.ofNat 92 then bsl ++ bsl
  else if c = Char.ofNat 10 then bsl ++ "n"
  else if c = Char.ofNat 13 then bsl ++ "r"
  else if c = Char.ofNat 9 then bsl ++ "t"
  else String.singleton c

def jsonEscape (s : String) : String :=
  String.join (s.data.map escapeChar)

/-- A JSON string literal: `json!(s).to_string()` for a Rust string. -/
def jsonQuote (s : String) : String :=
  dq ++ jsonEscape s ++ dq

-- Compact JSON serialization, `json!(v).to_string()`.  `JVal.listToJson`
-- is `Vec::join` over the serialized elements with separator `,` — the
-- same string the stores build for SQL `IN (...)` lists.
mutual
def JVal.toJsonString : JVal → String
  | .jNull => "null"
  | .jBool b => cond b "true" "false"
  | .jNum n => toString n
  | .jStr s => jsonQuote s
  | .jArr xs => "[" ++ JVal.listToJson xs ++ "]"

def JVal.listToJson : List JVal → String
  | [] => ""
  | [x] => JVal.toJsonString x
  | x :: y :: rest => JVal.toJsonString x ++ "," ++ JVal.listToJson (y :: rest)
end

/-- `json!(metadata).to_string()` for a metadata map.  `serde_json`
serializes map keys in sorted order (its `Map` is a `BTreeMap`), so the
entries are key-sorted before being emitted. -/
def serializeMeta (md : List (String × JVal)) : String :=
  let sorted := md.mergeSort (fun a b => decide (a.1 ≤ b.1))
  let body := String.intercalate ","
    (sorted.map (fun kv => jsonQuote kv.1 ++ ":" ++ kv.2.toJsonString))
  "\x7b" ++ body ++ "\x7d"

/-- The `metadata` column reference used by `build_metadata_query`
(`sqlite_hybrid.rs` lines 302-307): the optional table qualifier is
defaulted to the empty string, and an empty qualifier means the bare
column name. -/
def metadataPath (tablePfx : Option String) : String :=
  let p := tablePfx.getD ""
  if p = "" then "metadata" else p ++ ".metadata"

/-- One compiled predicate conjunct (`sqlite_hybrid.rs` lines 311-342):
arrays become an `IN` membership test over the serialized values, strings
/ numbers / booleans become an equality test against their JSON
serialization, and anything else falls through to an equality test against
the generic serialization. -/
def filterCondition (path : String) (k : String) (v : JVal) : String :=
  match v with
  | .jArr xs =>
      "json_extract(" ++ path ++ ", " ++ squote ++ "$." ++ k ++ squote ++ ")" ++
        " IN (" ++ JVal.listToJson xs ++ ")"
  | .jStr s =>
      "json_extract(" ++ path ++ ", " ++ squote ++ "$." ++ k ++ squote ++ ")" ++
        " = " ++ jsonQuote s
  | .jNum n =>
      "json_extract(" ++ path ++ ", " ++ squote ++ "$." ++ k ++ squote ++ ")" ++
        " = " ++ toString n
  | .jBool b =>
      "json_extract(" ++ path ++ ", " ++ squote ++ "$." ++ k ++ squote ++ ")" ++
        " = " ++ cond b "true" "false"
  | v =>
      "json_extract(" ++ path ++ ", " ++ squote ++ "$." ++ k ++ squote ++ ")" ++
        " = " ++ v.toJsonString

/-- `Vec::join(" AND ")` over the compiled conjuncts. -/
def joinAnd : List String → String
  | [] => ""
  | [c] => c
  | c :: d :: rest => c ++ " AND " ++ joinAnd (d :: rest)

/-- `Store::build_metadata_query` (`sqlite_hybrid.rs` lines 297-351): map
each filter entry to a conjunct, join with `AND`, and replace an empty
result with the universal-true expression `1=1`. -/
def build_metadata_query (filter : List (String × JVal)) (tablePfx : Option String) : String :=
  let path := metadataPath tablePfx
  let q := joinAnd (filter.map (fun kv => filterCondition path kv.1 kv.2))
  if q = "" then "1=1" else q

lemma str_append_ne_empty (a b : String) (h : a ≠ "") : a ++ b ≠ "" := by
  intro hab
  apply h
  have hl := congrArg String.length hab
  rw [String.length_append] at hl
  have h0 : ("" : String).length = 0 := rfl
  have ha : a.length = 0 := by omega
  cases a with
  | mk data =>
    cases data with
    | nil => rfl
    | cons c cs => simp [String.length] at ha

lemma filterCondition_ne_empty (path k : String) (v : JVal) :
    filterCondition path k v ≠ "" := by
  cases v <;> simp only [filterCondition] <;>
    (repeat apply str_append_ne_empty) <;> decide

lemma joinAnd_ne_empty (c : String) (rest : List String) (hc : c ≠ "") :
    joinAnd (c :: rest) ≠ "" := by
  cases rest with
  | nil => simpa [joinAnd]
  | cons d tl =>
    simp only [joinAnd]
    apply str_append_ne_empty
    apply str_append_ne_empty
    exact hc

/-- Semantics of one compiled conjunct evaluated against a row's metadata:
`json_extract(metadata, path-of-k)` yields the value stored at key `k`
(SQL `NULL` when absent, and `NULL = x` / `NULL IN (...)` never match), an
array conjunct is an `IN` membership test, a scalar conjunct an equality
test.  The key is treated as a flat path segment (none of the stores emit
nested paths). -/
def matchesFilter (filter : List (String × JVal)) (md : List (String × JVal)) : Bool :=
  filter.all (fun kv =>
    match md.find? (fun e => e.1 == kv.1), kv.2 with
    | some e, .jArr xs => xs.contains e.2
    | some e, v => JVal.beq e.2 v
    | none, _ => false)

/-- A document as handed to `add_documents` / returned by the searches
(`schemas::Document`): page content, metadata map and a relevance score. -/
structure Document where
  page_content : String
  metadata : List (String × JVal)
  score : ℚ

/-- A row of the primary table `T(rowid, text, metadata, text_embedding)`.
The metadata is kept structurally (the database stores its JSON
serialization; the filter conditions evaluate `json_extract` over it). -/
structure MainRow where
  rowid : Nat
  text : String
  metadata : List (String × JVal)
  embedding : List ℚ

/-- A row of the vector shadow index `vec_T(rowid, text_embedding)`. -/
structure VecRow where
  rowid : Nat
  embedding : List ℚ

/-- A row of the lexical shadow index `bm25_T(rowid, text, metadata)`; the
metadata column holds the serialized JSON copied by the insert trigger. -/
structure Bm25Row where
  rowid : Nat
  text : String
  metadataJson : String

/-- Committed state of the hybrid store's three structures plus the
autoincrement counter.  `initialize` leaves all three empty; SQLite
assigns rowids from 1. -/
structure HybridState where
  seq : Nat
  main : List MainRow
  vec : List VecRow
  bm25 : List Bm25Row

def initialHybridState : HybridState := ⟨1, [], [], []⟩

/-- Error classes of `add_documents`, one per distinct failure site in the
Rust code: the embedding-collaborator call (`embedder.embed_documents(..)?`),
the count check (`vectors.len() != docs.len()` returns an `io::Error`), and
the SQL insert (`tx.query_row(..)?` surfaces a `rusqlite::Error`). -/
inductive AddErr where
  | embedError
  | countMismatch
  | storageError
deriving DecidableEq

/-- One iteration of the hybrid insert loop (`sqlite_hybrid.rs` lines
389-413) together with the synchronous triggers it fires: the primary
`INSERT .. RETURNING rowid` propagates (rowid, embedding) into `vec_T` and
(rowid, text, serialized metadata) into `bm25_T`.  The `vec0` virtual
table stores a fixed-length `float[dims]` column and rejects an embedding
of any other length (modelled from the declared schema and the spec's
dimension-enforcement invariant); that failure surfaces as a storage
error from the insert statement. -/
def hybridInsertRow (dims : Int) (s : HybridState) (doc : Document) (v : List ℚ) :
    Except AddErr HybridState :=
  if (v.length : Int) = dims then
    Except.ok
      { seq := s.seq + 1
        main := s.main ++ [⟨s.seq, doc.page_content, doc.metadata, v⟩]
        vec := s.vec ++ [⟨s.seq, v⟩]
        bm25 := s.bm25 ++ [⟨s.seq, doc.page_content, serializeMeta doc.metadata⟩] }
  else Except.error AddErr.storageError

/-- The insert loop over all (document, vector) pairs, collecting the
assigned rowids as strings (`ids.push(id.to_string())`). -/
def hybridInsertLoop (dims : Int) :
    HybridState → List String → List (Document × List ℚ) →
    Except AddErr (HybridState × List String)
  | s, ids, [] => Except.ok (s, ids)
  | s, ids, (d, v) :: rest =>
    match hybridInsertRow dims s d v with
    | Except.ok s2 => hybridInsertLoop dims s2 (ids ++ [toString s.seq]) rest
    | Except.error e => Except.error e

/-- `slice::chunks(n)` restricted by fuel (each step consumes at least one
element when `0 < n`, so `l.length` steps suffice). -/
def chunksAux (n : Nat) : Nat → List α → List (List α)
  | 0, _ => []
  | _, [] => []
  | fuel + 1, l => l.take n :: chunksAux n fuel (l.drop n)

/-- `texts.chunks(batch_size)`: Rust's `chunks` panics when the chunk size
is `0`; `none` models that panic. -/
def chunksOpt (n : Nat) (l : List α) : Option (List (List α)) :=
  if n = 0 then none else some (chunksAux n l.length l)

/-- The batch loop over the embedding collaborator (`sqlite_hybrid.rs`
lines 370-373): each chunk is embedded and the vectors are concatenated in
order; the first collaborator failure aborts the whole call. -/
def embedBatches (embed : List String → Except Unit (List (List ℚ))) :
    List (List String) → Except Unit (List (List ℚ))
  | [] => Except.ok []
  | b :: rest =>
    match embed b with
    | Except.error e => Except.error e
    | Except.ok v =>
      match embedBatches embed rest with
      | Except.error e => Except.error e
      | Except.ok vs => Except.ok (v ++ vs)

/-- `Store::add_documents` of the hybrid store (`sqlite_hybrid.rs` lines
356-418).  Result: `none` models the `chunks(0)` panic; otherwise the pair
of the committed state and the call's return value.  A mid-transaction
failure never commits (the `rusqlite` transaction rolls back on drop), so
the committed state on any error is the input state. -/
def hybrid_add_documents (dims : Int) (batchSize : Nat)
    (embed : List String → Except Unit (List (List ℚ)))
    (docs : List Document) (s : HybridState) :
    Option (HybridState × Except AddErr (List String)) :=
  match chunksOpt batchSize (docs.map (fun d => d.page_content)) with
  | none => none
  | some batches =>
    match embedBatches embed batches with
    | Except.error _ => some (s, Except.error AddErr.embedError)
    | Except.ok vectors =>
      if vectors.length = docs.length then
        match hybridInsertLoop dims s [] (docs.zip vectors) with
        | Except.ok (s2, ids) => some (s2, Except.ok ids)
        | Except.error e => some (s, Except.error e)
      else some (s, Except.error AddErr.countMismatch)

/-- `Store::delete_documents_by_ids` of the hybrid store (`sqlite_hybrid.rs`
lines 203-225): empty input returns immediately; otherwise one transaction
deletes the matching primary rows, and the `AFTER DELETE` triggers remove
the same rowids — those actually deleted from the primary table — from
both shadow indexes. -/
def hybrid_delete_documents_by_ids (ids : List Nat) (s : HybridState) : HybridState :=
  if ids = [] then s
  else
    let deleted := (s.main.filter (fun r => decide (r.rowid ∈ ids))).map (fun r => r.rowid)
    { s with
      main := s.main.filter (fun r => !(decide (r.rowid ∈ ids)))
      vec := s.vec.filter (fun r => !(decide (r.rowid ∈ deleted)))
      bm25 := s.bm25.filter (fun r => !(decide (r.rowid ∈ deleted))) }

/-- `Store::delete_documents_by_metadata` of the hybrid store
(`sqlite_hybrid.rs` lines 146-201): an empty filter map returns `Ok(())`
before touching the database; otherwise the compiled conjunction selects
the primary rows to delete and the `AFTER DELETE` triggers remove the same
rowids from both shadow indexes. -/
def hybrid_delete_documents_by_metadata (filter : List (String × JVal)) (s : HybridState) :
    HybridState :=
  if filter.isEmpty then s
  else
    let deleted :=
      (s.main.filter (fun r => matchesFilter filter r.metadata)).map (fun r => r.rowid)
    { s with
      main := s.main.filter (fun r => !(matchesFilter filter r.metadata))
      vec := s.vec.filter (fun r => !(decide (r.rowid ∈ deleted)))
      bm25 := s.bm25.filter (fun r => !(decide (r.rowid ∈ deleted))) }

/-- `Store::delete_all_documents` of the hybrid store (`sqlite_hybrid.rs`
lines 227-245): one transaction deletes every primary row; the triggers
remove each deleted rowid from both shadow indexes. -/
def hybrid_delete_all_documents (s : HybridState) : HybridState :=
  let deleted := s.main.map (fun r => r.rowid)
  { s with
    main := []
    vec := s.vec.filter (fun r => !(decide (r.rowid ∈ deleted)))
    bm25 := s.bm25.filter (fun r => !(decide (r.rowid ∈ deleted))) }

/-- Committed state of the `sqlite_vec` store: primary table and vector
shadow index only (that variant creates no lexical index and no delete
triggers — deletes maintain the shadow index explicitly). -/
structure SVecState where
  seq : Nat
  main : List MainRow
  vec : List VecRow

def initialSVecState : SVecState := ⟨1, [], []⟩

/-- One iteration of the `sqlite_vec` insert loop (`sqlite_vec.rs` lines
215-235) with its insert trigger into `vec_T`; the `vec0` fixed-length
column rejects a wrongly-sized embedding as in the hybrid store. -/
def svecInsertRow (dims : Int) (s : SVecState) (doc : Document) (v : List ℚ) :
    Except AddErr SVecState :=
  if (v.length : Int) = dims then
    Except.ok
      { seq := s.seq + 1
        main := s.main ++ [⟨s.seq, doc.page_content, doc.metadata, v⟩]
        vec := s.vec ++ [⟨s.seq, v⟩] }
  else Except.error AddErr.storageError

def svecInsertLoop (dims : Int) :
    SVecState → List String → List (Document × List ℚ) →
    Except AddErr (SVecState × List String)
  | s, ids, [] => Except.ok (s, ids)
  | s, ids, (d, v) :: rest =>
    match svecInsertRow dims s d v with
    | Except.ok s2 => svecInsertLoop dims s2 (ids ++ [toString s.seq]) rest
    | Except.error e => Except.error e

/-- `Store::add_documents` of the `sqlite_vec` store (`sqlite_vec.rs` lines
194-239): all texts are embedded in one call (no batching), the vector
count is checked, and one transaction inserts every row. -/
def svec_add_documents (dims : Int)
    (embed : List String → Except Unit (List (List ℚ)))
    (docs : List Document) (s : SVecState) :
    SVecState × Except AddErr (List String) :=
  match embed (docs.map (fun d => d.page_content)) with
  | Except.error _ => (s, Except.error AddErr.embedError)
  | Except.ok vectors =>
    if vectors.length = docs.length then
      match svecInsertLoop dims s [] (docs.zip vectors) with
      | Except.ok (s2, ids) => (s2, Except.ok ids)
      | Except.error e => (s, Except.error e)
    else (s, Except.error AddErr.countMismatch)

/-- `Store::delete_documents_by_ids` of the `sqlite_vec` store
(`sqlite_vec.rs` lines 87-109): empty input returns immediately; otherwise
one transaction deletes the id set from the primary table and issues an
explicit delete of the same id set against `vec_T`. -/
def svec_delete_documents_by_ids (ids : List Nat) (s : SVecState) : SVecState :=
  if ids = [] then s
  else
    { s with
      main := s.main.filter (fun r => !(decide (r.rowid ∈ ids)))
      vec := s.vec.filter (fun r => !(decide (r.rowid ∈ ids))) }

/-- `Store::delete_documents_by_metadata` of the `sqlite_vec` store
(`sqlite_vec.rs` lines 111-172): an empty filter map returns `Ok(())`
immediately; otherwise one transaction deletes the matching primary rows
and then reconciles the shadow index by removing every `vec_T` row whose
rowid no longer exists in the primary table. -/
def svec_delete_documents_by_metadata (filter : List (String × JVal)) (s : SVecState) :
    SVecState :=
  if filter.isEmpty then s
  else
    let main2 := s.main.filter (fun r => !(matchesFilter filter r.metadata))
    { s with
      main := main2
      vec := s.vec.filter (fun r => decide (r.rowid ∈ main2.map (fun m => m.rowid))) }

/-- `Store::delete_all_documents` of the `sqlite_vec` store
(`sqlite_vec.rs` lines 174-189): one transaction clears both tables. -/
def svec_delete_all_documents (s : SVecState) : SVecState :=
  { s with main := [], vec := [] }

/-- A row of the `sqlite_bm25` store's single `fts5` table, with the
metadata kept structurally for filter evaluation. -/
structure BmRow where
  rowid : Nat
  text : String
  metadata : List (String × JVal)

/-- State of the `sqlite_bm25` store (one lexical table, no shadow
indexes). -/
structure Bm25State where
  seq : Nat
  rows : List BmRow

/-- Semantics of the bm25 store's `WHERE {where_clause}`: an empty filter
compiles to `1=1`, which matches every row; otherwise the compiled
conjunction is evaluated. -/
def whereMatches (filter : List (String × JVal)) (md : List (String × JVal)) : Bool :=
  if filter.isEmpty then true else matchesFilter filter md

/-- `Store::delete_documents_by_metadata` of the `sqlite_bm25` store
(`sqlite_bm25.rs` lines 76-122).  Unlike the hybrid and `sqlite_vec`
variants it has no empty-filter early return: an empty map compiles to the
universal-true clause and the delete removes every row. -/
def bm25_delete_documents_by_metadata (filter : List (String × JVal)) (t : Bm25State) :
    Bm25State :=
  { t with rows := t.rows.filter (fun r => !(whereMatches filter r.metadata)) }

/-- The reciprocal-rank-fusion term a path contributes for rowid `r`:
`1/(60 + rank)` where `rank` is the 1-based position of `r` in the path's
candidate list (the `row_number()` the CTE assigns), and `0` when `r` is
absent from the list (`COALESCE(..., 0.0)` after the outer join). -/
def rrfTerm (ids : List Nat) (r : Nat) : ℚ :=
  match ids.indexOf? r with
  | some i => 1 / (60 + ((i : ℚ) + 1))
  | none => 0

/-- The fused-query scoring of `sqlite_vss.rs` lines 244-289.  Inputs are
the two CTE candidate lists exactly as the engine returns them —
`vec_matches` ordered by ascending distance, `fts_matches` ordered by
ascending raw rank — each pairing a rowid with its raw sub-score, plus the
rowids present in the primary table.  The `FULL OUTER JOIN` keeps every
candidate of either list; the `JOIN {table} items` keeps only candidates
whose rowid exists in the primary table; each kept candidate's combined
score is the sum of the two reciprocal-rank terms; the outer `SELECT`
orders by combined score descending.  (Both CTEs are keyed by rowid, so a
rowid occurs at most once per list and its `row_number()` is its 1-based
position.) -/
def hybrid_fuse (vecCands ftsCands : List (Nat × ℚ)) (mainIds : List Nat) :
    List (Nat × ℚ) :=
  let vecIds := vecCands.map (fun c => c.1)
  let ftsIds := ftsCands.map (fun c => c.1)
  let joined := ftsIds ++ vecIds.filter (fun r => !(decide (r ∈ ftsIds)))
  let present := joined.filter (fun r => decide (r ∈ mainIds))
  let scored := present.map (fun r => (r, rrfTerm ftsIds r + rrfTerm vecIds r))
  scored.mergeSort (fun a b => decide (a.2 ≥ b.2))

/-- A row as returned by the hybrid / `sqlite_vec` vector-search SQL:
text, (parsed) metadata and the reported distance. -/
structure VRow where
  text : String
  metadata : List (String × JVal)
  distance : ℚ

/-- The dedup key of `similarity_search`:
`format!("{}{}", doc.page_content, json!(doc.metadata))`. -/
def docDedupKey (d : Document) : String :=
  d.page_content ++ serializeMeta d.metadata

/-- The `HashSet`-based filter of `similarity_search`: keep a document iff
its dedup key has not been seen before (first occurrence wins, order
preserved). -/
def dedupDocs (seen : List String) : List Document → List Document
  | [] => []
  | d :: ds =>
    if decide (docDedupKey d ∈ seen) then dedupDocs seen ds
    else d :: dedupDocs (docDedupKey d :: seen) ds

/-- The post-processing of `similarity_search` in the hybrid and
`sqlite_vec` stores (`sqlite_hybrid.rs` lines 420-479): the prepared
statement is given `LIMIT doubled_limit` with `doubled_limit = limit * 2`
(modelled by truncating whatever candidate rows the index produced), each
row's distance is mapped to `score = 1 / (1 + distance)`, duplicates by
(content, metadata) key are dropped, the survivors are re-sorted by score
descending, and the list is truncated to the requested limit. -/
def hybrid_similarity_search (rows : List VRow) (limit : Nat) : List Document :=
  let fetched := rows.take (limit * 2)
  let docs := fetched.map (fun r => ⟨r.text, r.metadata, 1 / (1 + r.distance)⟩)
  let uniq := dedupDocs [] docs
  let sorted := uniq.mergeSort (fun a b => decide (a.score ≥ b.score))
  sorted.take limit

/-- `ai_bm25_response.chars().map(|c| if c.is_alphanumeric() { c } else
{ ' ' })` — every non-alphanumeric character becomes a space (`isAlphanum`
is the ASCII approximation of Rust's Unicode `is_alphanumeric`; the
difference does not matter for the fallback claim). -/
def sanitizeKeyword (s : String) : String :=
  String.mk (s.data.map (fun c => if c.isAlphanum then c else Char.ofNat 32))

/-- `Store::similarity_search` of the `sqlite_vss` store (`sqlite_vss.rs`
lines 191-314) reduced to its collaborator structure: the keyword-
extraction model's response (`llmResult`) falls back to the raw query text
via `unwrap_or_else`, is sanitized, and drives the lexical path; the query
embedding (`embedQuery`) is propagated with `?` — its failure aborts the
search; the two index paths (`vecSearch`, `ftsSearch`) are the engine's
responses to the two CTEs; scoring and ordering are `hybrid_fuse`. -/
def vss_similarity_search (llmResult : Except String String) (query : String)
    (embedQuery : Except Unit (List ℚ))
    (vecSearch : List ℚ → List (Nat × ℚ))
    (ftsSearch : String → List (Nat × ℚ))
    (mainIds : List Nat) : Except Unit (List (Nat × ℚ)) :=
  let kw := sanitizeKeyword
    (match llmResult with
     | Except.ok r => r
     | Except.error _ => query)
  match embedQuery with
  | Except.error _ => Except.error ()
  | Except.ok qv => Except.ok (hybrid_fuse (vecSearch qv) (ftsSearch kw) mainIds)

/-- The persisted schema objects `create_table_if_not_exists` manages for
the hybrid store: the primary table, the `vec0` shadow table (recording
the dimensionality it was declared with), the `fts5` shadow table, and the
four synchronization triggers. -/
structure SchemaState where
  mainTable : Bool
  vecTable : Option Int
  embedTrigger : Bool
  bm25Table : Bool
  bm25InsertTrigger : Bool
  bm25DeleteTrigger : Bool
  vecDeleteTrigger : Bool
deriving DecidableEq

inductive SchemaErr where
  | schemaError
deriving DecidableEq

/-- A fresh database: no schema objects exist. -/
def emptySchema : SchemaState :=
  ⟨false, none, false, false, false, false, false⟩

/-- `Store::create_table_if_not_exists` of the hybrid store
(`sqlite_hybrid.rs` lines 30-133), the body of `initialize`: six
`CREATE ... IF NOT EXISTS` statements, each a no-op when its object
already exists.  Modelled from the spec: the `vec0` module validates the
declared `float[dims]` column when — and only when — the virtual table is
actually created, and rejects a non-positive dimensionality; the spec
classifies that failure as a `SchemaError`. -/
def create_table_if_not_exists (dims : Int) (sc : SchemaState) :
    Except SchemaErr SchemaState :=
  let sc1 := { sc with mainTable := true }
  match sc1.vecTable with
  | some _ =>
    Except.ok { sc1 with
      embedTrigger := true
      bm25Table := true
      bm25InsertTrigger := true
      bm25DeleteTrigger := true
      vecDeleteTrigger := true }
  | none =>
    if dims ≤ 0 then Except.error SchemaErr.schemaError
    else
      Except.ok { sc1 with
        vecTable := some dims
        embedTrigger := true
        bm25Table := true
        bm25InsertTrigger := true
        bm25DeleteTrigger := true
        vecDeleteTrigger := true }

lemma map_filter_comp (f : α → β) (p : β → Bool) (l : List α) :
    (l.filter (fun a => p (f a))).map f = (l.map f).filter p := by
  induction l with
  | nil => rfl
  | cons a tl ih =>
    by_cases hp : p (f a) <;> simp [List.filter_cons, hp, ih]

/-- Strengthened lockstep invariant of the hybrid store: the three rowid
columns agree as lists, contain no duplicates, and stay below the
autoincrement counter. -/
def hybridInv (s : HybridState) : Prop :=
  s.main.map (fun r => r.rowid) = s.vec.map (fun r => r.rowid) ∧
  s.main.map (fun r => r.rowid) = s.bm25.map (fun r => r.rowid) ∧
  (s.main.map (fun r => r.rowid)).Nodup ∧
  ∀ x ∈ s.main.map (fun r => r.rowid), x < s.seq
lemma reconcile_filter_eq {α : Type} (f : α → Nat) (p : α → Bool) :
    ∀ l : List α, (l.map f).Nodup →
    (l.map f).filter (fun x => decide (x ∈ (l.filter p).map f))
      = (l.filter p).map f := by
  intro l
  induction l with
  | nil => intro _; rfl
  | cons a tl ih =>
    intro hn
    simp only [List.map_cons, List.nodup_cons] at hn
    obtain ⟨hhead, htl⟩ := hn
    have hsub : ∀ y ∈ (tl.filter p).map f, y ∈ tl.map f := by
      intro y hy
      rcases List.mem_map.mp hy with ⟨rr, hrr, hrw⟩
      exact List.mem_map.mpr ⟨rr, (List.mem_filter.mp hrr).1, hrw⟩
    have hfa : f a ∉ (tl.filter p).map f := fun hmem => hhead (hsub _ hmem)
    have hcongr : ∀ D : List Nat,
        (tl.map f).filter (fun x => decide (x ∈ f a :: D))
          = (tl.map f).filter (fun x => decide (x ∈ D)) := by
      intro D
      apply List.filter_congr
      intro x hx
      have hne : x ≠ f a := by rintro rfl; exact hhead hx
      simp [List.mem_cons, hne]
    by_cases hp : p a
    · simp only [List.filter_cons, hp, if_pos, List.map_cons]
      have hfc : decide (f a ∈ f a :: ((tl.filter p).map f)) = true := by simp
      rw [hfc, if_pos rfl]
      congr 1
      rw [hcongr ((tl.filter p).map f), ih htl]
    · simp only [List.filter_cons, hp, List.map_cons]
      simp only [Bool.false_eq_true, if_false]
      have hd : decide (f a ∈ (tl.filter p).map f) = false := by simp [hfa]
      rw [hd]
      simp only [Bool.false_eq_true, if_false]
      exact ih htl

lemma trigger_delete_eq {α : Type} (f : α → Nat) (p : α → Bool) :
    ∀ l : List α, (l.map f).Nodup →
    (l.map f).filter (fun x => !(decide (x ∈ (l.filter p).map f)))
      = (l.filter (fun r => !(p r))).map f := by
  intro l
  induction l with
  | nil => intro _; rfl
  | cons a tl ih =>
    intro hn
    simp only [List.map_cons, List.nodup_cons] at hn
    obtain ⟨hhead, htl⟩ := hn
    have hsub : ∀ y ∈ (tl.filter p).map f, y ∈ tl.map f := by
      intro y hy
      rcases List.mem_map.mp hy with ⟨rr, hrr, hrw⟩
      exact List.mem_map.mpr ⟨rr, (List.mem_filter.mp hrr).1, hrw⟩
    have hfa : f a ∉ (tl.filter p).map f := fun hmem => hhead (hsub _ hmem)
    have hcongr : ∀ D : List Nat,
        (tl.map f).filter (fun x => !(decide (x ∈ f a :: D)))
          = (tl.map f).filter (fun x => !(decide (x ∈ D))) := by
      intro D
      apply List.filter_congr
      intro x hx
      have hne : x ≠ f a := by rintro rfl; exact hhead hx
      simp [List.mem_cons, hne]
    by_cases hp : p a
    · simp only [List.filter_cons, hp, if_pos, List.map_cons]
      have hfc : decide (f a ∈ f a :: ((tl.filter p).map f)) = true := by simp
      rw [hfc]
      simp only [Bool.not_true, Bool.false_eq_true, if_false]
      rw [hcongr ((tl.filter p).map f), ih htl]
    · simp only [List.filter_cons, hp, List.map_cons]
      simp only [Bool.false_eq_true, if_false]
      have hd : decide (f a ∈ (tl.filter p).map f) = false := by simp [hfa]
      rw [hd]
      simp only [Bool.not_false, if_pos]
      simp only [List.map_cons]
      congr 1
      exact ih htl

lemma hybridInsertRow_inv (dims : Int) (s : HybridState) (doc : Document) (v : List ℚ)
    (s2 : HybridState) (hinv : hybridInv s)
    (h : hybridInsertRow dims s doc v = Except.ok s2) : hybridInv s2 := by
  obtain ⟨h1, h2, h3, h4⟩ := hinv
  unfold hybridInsertRow at h
  split at h
  · cases h
    refine ⟨?_, ?_, ?_, ?_⟩
    · simp [List.map_append, h1]
    · simp [List.map_append, h2]
    · rw [List.map_append]
      rw [List.nodup_append]
      refine ⟨h3, by simp, ?_⟩
      intro x hx
      simp only [List.map_cons, List.map_nil, List.mem_singleton]
      intro hxy
      exact absurd (h4 x hx) (by omega)
    · intro x hx
      rw [List.map_append] at hx
      rcases List.mem_append.mp hx with hx | hx
      · exact Nat.lt_succ_of_lt (h4 x hx)
      · have hxe : x = s.seq := by simpa using hx
        subst hxe
        exact Nat.lt_succ_self _
  · cases h

lemma hybridInsertLoop_inv (dims : Int) :
    ∀ (l : List (Document × List ℚ)) (s : HybridState) (ids : List String)
      (s2 : HybridState) (ids2 : List String), hybridInv s →
      hybridInsertLoop dims s ids l = Except.ok (s2, ids2) → hybridInv s2 := by
  intro l
  induction l with
  | nil =>
    intro s ids s2 ids2 hinv h
    simp only [hybridInsertLoop] at h
    cases h
    exact hinv
  | cons dv rest ih =>
    intro s ids s2 ids2 hinv h
    simp only [hybridInsertLoop] at h
    cases hrow : hybridInsertRow dims s dv.1 dv.2 with
    | ok s3 =>
      rw [hrow] at h
      exact ih s3 _ s2 ids2 (hybridInsertRow_inv dims s dv.1 dv.2 s3 hinv hrow) h
    | error e =>
      rw [hrow] at h
      cases h

lemma hybrid_add_documents_inv (dims : Int) (batchSize : Nat)
    (embed : List String → Except Unit (List (List ℚ)))
    (docs : List Document) (s s2 : HybridState) (r : Except AddErr (List String))
    (hinv : hybridInv s)
    (h : hybrid_add_documents dims batchSize embed docs s = some (s2, r)) :
    hybridInv s2 := by
  unfold hybrid_add_documents at h
  cases hch : chunksOpt batchSize (docs.map (fun d => d.page_content)) with
  | none =>
    rw [hch] at h
    simp only at h
    exact Option.noConfusion h
  | some batches =>
    rw [hch] at h
    simp only at h
    cases hemb : embedBatches embed batches with
    | error e =>
      rw [hemb] at h
      simp only at h
      cases h
      exact hinv
    | ok vectors =>
      rw [hemb] at h
      simp only at h
      by_cases hlen : vectors.length = docs.length
      · rw [if_pos hlen] at h
        cases hloop : hybridInsertLoop dims s [] (docs.zip vectors) with
        | ok p =>
          rw [hloop] at h
          simp only at h
          cases h
          exact hybridInsertLoop_inv dims (docs.zip vectors) s [] p.1 p.2 hinv hloop
        | error e =>
          rw [hloop] at h
          simp only at h
          cases h
          exact hinv
      · rw [if_neg hlen] at h
        cases h
        exact hinv

lemma hybrid_delete_ids_inv (ids : List Nat) (s : HybridState) (hinv : hybridInv s) :
    hybridInv (hybrid_delete_documents_by_ids ids s) := by
  obtain ⟨h1, h2, h3, h4⟩ := hinv
  unfold hybrid_delete_documents_by_ids
  by_cases hids : ids = []
  · rw [if_pos hids]
    exact ⟨h1, h2, h3, h4⟩
  · rw [if_neg hids]
    have hmain : (s.main.filter (fun r => !(decide (r.rowid ∈ ids)))).map (fun r => r.rowid)
        = (s.main.map (fun r => r.rowid)).filter (fun x => !(decide (x ∈ ids))) :=
      map_filter_comp (fun r : MainRow => r.rowid) (fun x => !(decide (x ∈ ids))) s.main
    have hvec : (s.vec.filter (fun r =>
          !(decide (r.rowid ∈ (s.main.filter (fun m => decide (m.rowid ∈ ids))).map
            (fun m => m.rowid))))).map (fun r => r.rowid)
        = (s.vec.map (fun r => r.rowid)).filter (fun x =>
            !(decide (x ∈ (s.main.filter (fun m => decide (m.rowid ∈ ids))).map
              (fun m => m.rowid)))) :=
      map_filter_comp (fun r : VecRow => r.rowid)
        (fun x => !(decide (x ∈ (s.main.filter (fun m => decide (m.rowid ∈ ids))).map
          (fun m => m.rowid)))) s.vec
    have hbm : (s.bm25.filter (fun r =>
          !(decide (r.rowid ∈ (s.main.filter (fun m => decide (m.rowid ∈ ids))).map
            (fun m => m.rowid))))).map (fun r => r.rowid)
        = (s.bm25.map (fun r => r.rowid)).filter (fun x =>
            !(decide (x ∈ (s.main.filter (fun m => decide (m.rowid ∈ ids))).map
              (fun m => m.rowid)))) :=
      map_filter_comp (fun r : Bm25Row => r.rowid)
        (fun x => !(decide (x ∈ (s.main.filter (fun m => decide (m.rowid ∈ ids))).map
          (fun m => m.rowid)))) s.bm25
    have htrig := trigger_delete_eq (fun r : MainRow => r.rowid)
      (fun r => decide (r.rowid ∈ ids)) s.main h3
    refine ⟨?_, ?_, ?_, ?_⟩
    · rw [hmain, hvec, ← h1, htrig]
      exact hmain.symm
    · rw [hmain, hbm, ← h2, htrig]
      exact hmain.symm
    · rw [hmain]
      exact h3.filter _
    · intro x hx
      rw [hmain] at hx
      exact h4 x (List.mem_of_mem_filter hx)

lemma hybrid_delete_metadata_inv (filter : List (String × JVal)) (s : HybridState)
    (hinv : hybridInv s) :
    hybridInv (hybrid_delete_documents_by_metadata filter s) := by
  obtain ⟨h1, h2, h3, h4⟩ := hinv
  unfold hybrid_delete_documents_by_metadata
  by_cases hf : filter.isEmpty
  · rw [if_pos hf]
    exact ⟨h1, h2, h3, h4⟩
  · rw [if_neg hf]
    have hmain : (s.main.filter (fun r => !(matchesFilter filter r.metadata))).map
          (fun r => r.rowid)
        = (s.main.map (fun r => r.rowid)).filter
            (fun x => !(decide (x ∈ ((s.main.filter
              (fun m => matchesFilter filter m.metadata)).map (fun m => m.rowid))))) := by
      rw [trigger_delete_eq (fun r : MainRow => r.rowid)
        (fun r => matchesFilter filter r.metadata) s.main h3]
    have hvec : (s.vec.filter (fun r =>
          !(decide (r.rowid ∈ (s.main.filter (fun m => matchesFilter filter m.metadata)).map
            (fun m => m.rowid))))).map (fun r => r.rowid)
        = (s.vec.map (fun r => r.rowid)).filter (fun x =>
            !(decide (x ∈ (s.main.filter (fun m => matchesFilter filter m.metadata)).map
              (fun m => m.rowid)))) :=
      map_filter_comp (fun r : VecRow => r.rowid)
        (fun x => !(decide (x ∈ (s.main.filter (fun m => matchesFilter filter m.metadata)).map
          (fun m => m.rowid)))) s.vec
    have hbm : (s.bm25.filter (fun r =>
          !(decide (r.rowid ∈ (s.main.filter (fun m => matchesFilter filter m.metadata)).map
            (fun m => m.rowid))))).map (fun r => r.rowid)
        = (s.bm25.map (fun r => r.rowid)).filter (fun x =>
            !(decide (x ∈ (s.main.filter (fun m => matchesFilter filter m.metadata)).map
              (fun m => m.rowid)))) :=
      map_filter_comp (fun r : Bm25Row => r.rowid)
        (fun x => !(decide (x ∈ (s.main.filter (fun m => matchesFilter filter m.metadata)).map
          (fun m => m.rowid)))) s.bm25
    refine ⟨?_, ?_, ?_, ?_⟩
    · rw [hmain, hvec, ← h1]
    · rw [hmain, hbm, ← h2]
    · rw [hmain]
      exact h3.filter _
    · intro x hx
      rw [hmain] at hx
      exact h4 x (List.mem_of_mem_filter hx)

lemma hybrid_delete_all_inv (s : HybridState) (hinv : hybridInv s) :
    hybridInv (hybrid_delete_all_documents s) := by
  obtain ⟨h1, h2, h3, h4⟩ := hinv
  unfold hybrid_delete_all_documents
  have hvec : (s.vec.filter (fun r =>
        !(decide (r.rowid ∈ s.main.map (fun m => m.rowid))))).map (fun r => r.rowid) = [] := by
    rw [map_filter_comp (fun r : VecRow => r.rowid)
      (fun x => !(decide (x ∈ s.main.map (fun m => m.rowid)))) s.vec]
    rw [List.filter_eq_nil_iff]
    intro x hx
    rw [← h1] at hx
    simp [hx]
  have hbm : (s.bm25.filter (fun r =>
        !(decide (r.rowid ∈ s.main.map (fun m => m.rowid))))).map (fun r => r.rowid) = [] := by
    rw [map_filter_comp (fun r : Bm25Row => r.rowid)
      (fun x => !(decide (x ∈ s.main.map (fun m => m.rowid)))) s.bm25]
    rw [List.filter_eq_nil_iff]
    intro x hx
    rw [← h2] at hx
    simp [hx]
  refine ⟨?_, ?_, ?_, ?_⟩
  · simp only [List.map_nil]
    exact hvec.symm
  · simp only [List.map_nil]
    exact hbm.symm
  · simp
  · simp

/-- Lockstep invariant of the `sqlite_vec` store, with the same
strengthening. -/
def svecInv (s : SVecState) : Prop :=
  s.main.map (fun r => r.rowid) = s.vec.map (fun r => r.rowid) ∧
  (s.main.map (fun r => r.rowid)).Nodup ∧
  ∀ x ∈ s.main.map (fun r => r.rowid), x < s.seq

lemma svecInsertRow_inv (dims : Int) (s : SVecState) (doc : Document) (v : List ℚ)
    (s2 : SVecState) (hinv : svecInv s)
    (h : svecInsertRow dims s doc v = Except.ok s2) : svecInv s2 := by
  obtain ⟨h1, h3, h4⟩ := hinv
  unfold svecInsertRow at h
  split at h
  · cases h
    refine ⟨?_, ?_, ?_⟩
    · simp [List.map_append, h1]
    · rw [List.map_append, List.nodup_append]
      refine ⟨h3, by simp, ?_⟩
      intro x hx
      simp only [List.map_cons, List.map_nil, List.mem_singleton]
      intro hxy
      exact absurd (h4 x hx) (by omega)
    · intro x hx
      rw [List.map_append] at hx
      rcases List.mem_append.mp hx with hx | hx
      · exact Nat.lt_succ_of_lt (h4 x hx)
      · have hxe : x = s.seq := by simpa using hx
        subst hxe
        exact Nat.lt_succ_self _
  · cases h

lemma svecInsertLoop_inv (dims : Int) :
    ∀ (l : List (Document × List ℚ)) (s : SVecState) (ids : List String)
      (s2 : SVecState) (ids2 : List String), svecInv s →
      svecInsertLoop dims s ids l = Except.ok (s2, ids2) → svecInv s2 := by
  intro l
  induction l with
  | nil =>
    intro s ids s2 ids2 hinv h
    simp only [svecInsertLoop] at h
    cases h
    exact hinv
  | cons dv rest ih =>
    intro s ids s2 ids2 hinv h
    simp only [svecInsertLoop] at h
    cases hrow : svecInsertRow dims s dv.1 dv.2 with
    | ok s3 =>
      rw [hrow] at h
      exact ih s3 _ s2 ids2 (svecInsertRow_inv dims s dv.1 dv.2 s3 hinv hrow) h
    | error e =>
      rw [hrow] at h
      cases h

lemma svec_add_documents_inv (dims : Int)
    (embed : List String → Except Unit (List (List ℚ)))
    (docs : List Document) (s : SVecState) (hinv : svecInv s) :
    svecInv (svec_add_documents dims embed docs s).1 := by
  unfold svec_add_documents
  cases hemb : embed (docs.map (fun d => d.page_content)) with
  | error e => exact hinv
  | ok vectors =>
    simp only
    by_cases hlen : vectors.length = docs.length
    · rw [if_pos hlen]
      cases hloop : svecInsertLoop dims s [] (docs.zip vectors) with
      | ok p =>
        simp only
        exact svecInsertLoop_inv dims (docs.zip vectors) s [] p.1 p.2 hinv hloop
      | error e => exact hinv
    · rw [if_neg hlen]
      exact hinv

lemma svec_delete_ids_inv (ids : List Nat) (s : SVecState) (hinv : svecInv s) :
    svecInv (svec_delete_documents_by_ids ids s) := by
  obtain ⟨h1, h3, h4⟩ := hinv
  unfold svec_delete_documents_by_ids
  by_cases hids : ids = []
  · rw [if_pos hids]
    exact ⟨h1, h3, h4⟩
  · rw [if_neg hids]
    have hmain : (s.main.filter (fun r => !(decide (r.rowid ∈ ids)))).map (fun r => r.rowid)
        = (s.main.map (fun r => r.rowid)).filter (fun x => !(decide (x ∈ ids))) :=
      map_filter_comp (fun r : MainRow => r.rowid) (fun x => !(decide (x ∈ ids))) s.main
    have hvec : (s.vec.filter (fun r => !(decide (r.rowid ∈ ids)))).map (fun r => r.rowid)
        = (s.vec.map (fun r => r.rowid)).filter (fun x => !(decide (x ∈ ids))) :=
      map_filter_comp (fun r : VecRow => r.rowid) (fun x => !(decide (x ∈ ids))) s.vec
    refine ⟨?_, ?_, ?_⟩
    · rw [hmain, hvec, ← h1]
    · rw [hmain]
      exact h3.filter _
    · intro x hx
      rw [hmain] at hx
      exact h4 x (List.mem_of_mem_filter hx)

lemma svec_delete_metadata_inv (filter : List (String × JVal)) (s : SVecState)
    (hinv : svecInv s) :
    svecInv (svec_delete_documents_by_metadata filter s) := by
  obtain ⟨h1, h3, h4⟩ := hinv
  unfold svec_delete_documents_by_metadata
  by_cases hf : filter.isEmpty
  · rw [if_pos hf]
    exact ⟨h1, h3, h4⟩
  · rw [if_neg hf]
    have hsubl : ((s.main.filter (fun r => !(matchesFilter filter r.metadata))).map
          (fun r => r.rowid)).Sublist (s.main.map (fun r => r.rowid)) :=
      (List.filter_sublist s.main).map (fun r => r.rowid)
    have hvec : (s.vec.filter (fun r =>
          decide (r.rowid ∈ (s.main.filter (fun m => !(matchesFilter filter m.metadata))).map
            (fun m => m.rowid)))).map (fun r => r.rowid)
        = (s.vec.map (fun r => r.rowid)).filter (fun x =>
            decide (x ∈ (s.main.filter (fun m => !(matchesFilter filter m.metadata))).map
              (fun m => m.rowid))) :=
      map_filter_comp (fun r : VecRow => r.rowid)
        (fun x => decide (x ∈ (s.main.filter (fun m => !(matchesFilter filter m.metadata))).map
          (fun m => m.rowid))) s.vec
    have hrec := reconcile_filter_eq (fun r : MainRow => r.rowid)
      (fun r => !(matchesFilter filter r.metadata)) s.main h3
    refine ⟨?_, ?_, ?_⟩
    · rw [hvec, ← h1, hrec]
    · exact h3.sublist hsubl
    · intro x hx
      exact h4 x (hsubl.mem hx)

lemma svec_delete_all_inv (s : SVecState) : svecInv (svec_delete_all_documents s) := by
  refine ⟨rfl, by simp [svec_delete_all_documents], by simp [svec_delete_all_documents]⟩

/-- The committed states of the hybrid store reachable, after `initialize`
on a fresh database, by any sequence of `add_documents`,
`delete_documents_by_ids`, `delete_documents_by_metadata` and
`delete_all_documents` calls (with arbitrary collaborator behaviour). -/
inductive HybridReachable : HybridState → Prop where
  | init : HybridReachable initialHybridState
  | add (dims : Int) (batchSize : Nat)
      (embed : List String → Except Unit (List (List ℚ)))
      (docs : List Document) (s s2 : HybridState) (r : Except AddErr (List String)) :
      HybridReachable s →
      hybrid_add_documents dims batchSize embed docs s = some (s2, r) →
      HybridReachable s2
  | delIds (ids : List Nat) (s : HybridState) :
      HybridReachable s → HybridReachable (hybrid_delete_documents_by_ids ids s)
  | delMeta (f : List (String × JVal)) (s : HybridState) :
      HybridReachable s → HybridReachable (hybrid_delete_documents_by_metadata f s)
  | delAll (s : HybridState) :
      HybridReachable s → HybridReachable (hybrid_delete_all_documents s)

/-- Reachable committed states of the `sqlite_vec` store. -/
inductive SVecReachable : SVecState → Prop where
  | init : SVecReachable initialSVecState
  | add (dims : Int) (embed : List String → Except Unit (List (List ℚ)))
      (docs : List Document) (s : SVecState) :
      SVecReachable s → SVecReachable (svec_add_documents dims embed docs s).1
  | delIds (ids : List Nat) (s : SVecState) :
      SVecReachable s → SVecReachable (svec_delete_documents_by_ids ids s)
  | delMeta (f : List (String × JVal)) (s : SVecState) :
      SVecReachable s → SVecReachable (svec_delete_documents_by_metadata f s)
  | delAll (s : SVecState) :
      SVecReachable s → SVecReachable (svec_delete_all_documents s)

lemma hybridReachable_inv (s : HybridState) (h : HybridReachable s) : hybridInv s := by
  induction h with
  | init => exact ⟨rfl, rfl, by simp [initialHybridState], by simp [initialHybridState]⟩
  | add dims batchSize embed docs s s2 r _ hstep ih =>
    exact hybrid_add_documents_inv dims batchSize embed docs s s2 r ih hstep
  | delIds ids s _ ih => exact hybrid_delete_ids_inv ids s ih
  | delMeta f s _ ih => exact hybrid_delete_metadata_inv f s ih
  | delAll s _ ih => exact hybrid_delete_all_inv s ih

lemma svecReachable_inv (s : SVecState) (h : SVecReachable s) : svecInv s := by
  induction h with
  | init => exact ⟨rfl, by simp [initialSVecState], by simp [initialSVecState]⟩
  | add dims embed docs s _ ih => exact svec_add_documents_inv dims embed docs s ih
  | delIds ids s _ ih => exact svec_delete_ids_inv ids s ih
  | delMeta f s _ ih => exact svec_delete_metadata_inv f s ih
  | delAll s _ ih => exact svec_delete_all_inv s

/-- C1 — Lockstep invariant: in every committed state reachable by any
sequence of `add_documents`, `delete_documents_by_ids`,
`delete_documents_by_metadata` and `delete_all_documents` after
`initialize`, the set of rowids in the primary table equals the set in the
vector shadow index and (for the hybrid store, where the lexical index is
enabled) the set in the lexical shadow index; the `sqlite_vec` store
satisfies the same invariant for its two structures. -/
theorem lockstep_invariant (s : HybridState) (t : SVecState)
    (hs : HybridReachable s) (ht : SVecReachable t) :
    (∀ r : Nat,
        (r ∈ s.main.map (fun x => x.rowid) ↔ r ∈ s.vec.map (fun x => x.rowid)) ∧
        (r ∈ s.main.map (fun x => x.rowid) ↔ r ∈ s.bm25.map (fun x => x.rowid))) ∧
    (∀ r : Nat, r ∈ t.main.map (fun x => x.rowid) ↔ r ∈ t.vec.map (fun x => x.rowid)) := by
  obtain ⟨h1, h2, _, _⟩ := hybridReachable_inv s hs
  obtain ⟨g1, _, _⟩ := svecReachable_inv t ht
  refine ⟨fun r => ⟨?_, ?_⟩, fun r => ?_⟩
  · rw [h1]
  · rw [h2]
  · rw [g1]

/-- Witness for C1: the invariant holds at concrete reachable states of
both stores (the state after one `delete_all_documents` on the freshly
initialized store). -/
theorem lockstep_invariant_witness :
    (∀ r : Nat,
        (r ∈ (hybrid_delete_all_documents initialHybridState).main.map (fun x => x.rowid) ↔
          r ∈ (hybrid_delete_all_documents initialHybridState).vec.map (fun x => x.rowid)) ∧
        (r ∈ (hybrid_delete_all_documents initialHybridState).main.map (fun x => x.rowid) ↔
          r ∈ (hybrid_delete_all_documents initialHybridState).bm25.map (fun x => x.rowid))) ∧
    (∀ r : Nat, r ∈ initialSVecState.main.map (fun x => x.rowid) ↔
        r ∈ initialSVecState.vec.map (fun x => x.rowid)) :=
  lockstep_invariant (hybrid_delete_all_documents initialHybridState) initialSVecState
    (HybridReachable.delAll initialHybridState HybridReachable.init) SVecReachable.init

/-- C10 — Empty-predicate delete is a no-op: for the `sqlite_vec` and
`sqlite_hybrid` stores, `delete_documents_by_metadata` with an empty
filter map returns success immediately and leaves the whole state (primary
table and every shadow index) unchanged, whereas the `sqlite_bm25` store's
same entry point compiles the empty predicate to the universal-true clause
and deletes every row. -/
theorem empty_filter_delete_noop (s : HybridState) (t : SVecState) (u : Bm25State) :
    hybrid_delete_documents_by_metadata [] s = s ∧
    svec_delete_documents_by_metadata [] t = t ∧
    bm25_delete_documents_by_metadata [] u = { u with rows := [] } := by
  refine ⟨?_, ?_, ?_⟩
  · simp [hybrid_delete_documents_by_metadata]
  · simp [svec_delete_documents_by_metadata]
  · simp [bm25_delete_documents_by_metadata, whereMatches]

/-- C9 — Batching precondition: the hybrid `add_documents` chunks the text
list with `texts.chunks(batch_size)`, and Rust's `chunks` panics on a zero
chunk size, so the call panics (`none`) for every non-empty document list
when `batch_size = 0`; any `batch_size ≥ 1` makes the operation total. -/
theorem add_documents_batch_zero (dims : Int)
    (embed : List String → Except Unit (List (List ℚ)))
    (docs : List Document) (s : HybridState) (hne : docs ≠ []) :
    hybrid_add_documents dims 0 embed docs s = none ∧
    ∀ batchSize : Nat, batchSize ≠ 0 →
      hybrid_add_documents dims batchSize embed docs s ≠ none := by
  constructor
  · simp [hybrid_add_documents, chunksOpt]
  · intro bs hbs
    unfold hybrid_add_documents chunksOpt
    rw [if_neg hbs]
    simp only
    cases embedBatches embed
        (chunksAux bs (docs.map (fun d => d.page_content)).length
          (docs.map (fun d => d.page_content))) with
    | error e => simp
    | ok vectors =>
      simp only
      by_cases hlen : vectors.length = docs.length
      · rw [if_pos hlen]
        cases hybridInsertLoop dims s [] (docs.zip vectors) with
        | ok p =>
          obtain ⟨s3, ids3⟩ := p
          simp
        | error e => simp
      · rw [if_neg hlen]
        simp

def exampleDoc : Document := ⟨"hello world", [("lang", JVal.jStr "en")], 0⟩

def exampleEmbedOk : List String → Except Unit (List (List ℚ)) :=
  fun ts => Except.ok (ts.map (fun _ => [1, 0, 0]))

/-- Witness for C9 at a concrete one-document batch. -/
theorem add_documents_batch_zero_witness :
    hybrid_add_documents 3 0 exampleEmbedOk [exampleDoc] initialHybridState = none ∧
    hybrid_add_documents 3 1 exampleEmbedOk [exampleDoc] initialHybridState ≠ none :=
  ⟨(add_documents_batch_zero 3 exampleEmbedOk [exampleDoc] initialHybridState
      (by simp)).1,
   (add_documents_batch_zero 3 exampleEmbedOk [exampleDoc] initialHybridState
      (by simp)).2 1 (by simp)⟩

/-- C5 — Filter compiler: a scalar string / number / boolean value
compiles to an equality test on `json_extract` at that key; an array value
compiles to an `IN` membership test over the listed values; multiple keys
are joined with `AND`; the empty predicate compiles to `1=1`; and the
compiler never emits the empty string. -/
theorem build_metadata_query_spec :
    (∀ (p : Option String) (k s : String),
        build_metadata_query [(k, JVal.jStr s)] p =
          "json_extract(" ++ metadataPath p ++ ", " ++ squote ++ "$." ++ k ++ squote ++ ")" ++
            " = " ++ jsonQuote s) ∧
    (∀ (p : Option String) (k : String) (n : Int),
        build_metadata_query [(k, JVal.jNum n)] p =
          "json_extract(" ++ metadataPath p ++ ", " ++ squote ++ "$." ++ k ++ squote ++ ")" ++
            " = " ++ toString n) ∧
    (∀ (p : Option String) (k : String) (b : Bool),
        build_metadata_query [(k, JVal.jBool b)] p =
          "json_extract(" ++ metadataPath p ++ ", " ++ squote ++ "$." ++ k ++ squote ++ ")" ++
            " = " ++ cond b "true" "false") ∧
    (∀ (p : Option String) (k : String) (xs : List JVal),
        build_metadata_query [(k, JVal.jArr xs)] p =
          "json_extract(" ++ metadataPath p ++ ", " ++ squote ++ "$." ++ k ++ squote ++ ")" ++
            " IN (" ++ JVal.listToJson xs ++ ")") ∧
    (∀ (p : Option String) (kv : String × JVal) (f : List (String × JVal)), f ≠ [] →
        build_metadata_query (kv :: f) p =
          filterCondition (metadataPath p) kv.1 kv.2 ++ " AND " ++
            joinAnd (f.map (fun e => filterCondition (metadataPath p) e.1 e.2))) ∧
    (∀ p : Option String, build_metadata_query [] p = "1=1") ∧
    (∀ (f : List (String × JVal)) (p : Option String), build_metadata_query f p ≠ "") := by
  refine ⟨?_, ?_, ?_, ?_, ?_, ?_, ?_⟩
  · intro p k s
    unfold build_metadata_query
    simp only [List.map_cons, List.map_nil, joinAnd]
    rw [if_neg (filterCondition_ne_empty _ _ _)]
    rfl
  · intro p k n
    unfold build_metadata_query
    simp only [List.map_cons, List.map_nil, joinAnd]
    rw [if_neg (filterCondition_ne_empty _ _ _)]
    rfl
  · intro p k b
    unfold build_metadata_query
    simp only [List.map_cons, List.map_nil, joinAnd]
    rw [if_neg (filterCondition_ne_empty _ _ _)]
    rfl
  · intro p k xs
    unfold build_metadata_query
    simp only [List.map_cons, List.map_nil, joinAnd]
    rw [if_neg (filterCondition_ne_empty _ _ _)]
    rfl
  · intro p kv f hf
    unfold build_metadata_query
    cases f with
    | nil => exact absurd rfl hf
    | cons e rest =>
      simp only [List.map_cons, joinAnd]
      rw [if_neg]
      apply str_append_ne_empty
      apply str_append_ne_empty
      exact filterCondition_ne_empty _ _ _
  · intro p
    rfl
  · intro f p
    show (if joinAnd (f.map (fun kv => filterCondition (metadataPath p) kv.1 kv.2)) = ""
          then "1=1"
          else joinAnd (f.map (fun kv => filterCondition (metadataPath p) kv.1 kv.2))) ≠ ""
    split
    · decide
    next hq => exact hq

/-- Witness for C5: the AND-join clause at a concrete two-entry filter. -/
theorem build_metadata_query_spec_witness :
    build_metadata_query [("lang", JVal.jStr "en"), ("n", JVal.jNum 3)] none =
      filterCondition (metadataPath none) "lang" (JVal.jStr "en") ++ " AND " ++
        joinAnd ([("n", JVal.jNum 3)].map
          (fun e => filterCondition (metadataPath none) e.1 e.2)) :=
  build_metadata_query_spec.2.2.2.2.1 none ("lang", JVal.jStr "en")
    [("n", JVal.jNum 3)] (by simp)

lemma embedBatches_error_of_mem (embed : List String → Except Unit (List (List ℚ))) :
    ∀ batches : List (List String), (∃ b ∈ batches, embed b = Except.error ()) →
    embedBatches embed batches = Except.error () := by
  intro batches
  induction batches with
  | nil =>
    rintro ⟨b, hb, _⟩
    exact absurd hb (List.not_mem_nil b)
  | cons c rest ih =>
    rintro ⟨b, hb, hfail⟩
    rcases List.mem_cons.mp hb with hb | hb
    · subst hb
      simp only [embedBatches, hfail]
    · simp only [embedBatches]
      cases hc : embed c with
      | error e => cases e; rfl
      | ok v =>
        rw [ih ⟨b, hb, hfail⟩]

lemma hybridInsertLoop_error_of_badlen (dims : Int) :
    ∀ (l : List (Document × List ℚ)) (s : HybridState) (ids : List String),
      (∃ p ∈ l, ((p.2.length : Int) ≠ dims)) →
      hybridInsertLoop dims s ids l = Except.error AddErr.storageError := by
  intro l
  induction l with
  | nil =>
    rintro s ids ⟨p, hp, _⟩
    exact absurd hp (List.not_mem_nil p)
  | cons dv rest ih =>
    rintro s ids ⟨p, hp, hbad⟩
    obtain ⟨d, v⟩ := dv
    simp only [hybridInsertLoop]
    by_cases hv : ((v.length : Int) = dims)
    · have hrow : hybridInsertRow dims s d v = Except.ok
          { seq := s.seq + 1
            main := s.main ++ [⟨s.seq, d.page_content, d.metadata, v⟩]
            vec := s.vec ++ [⟨s.seq, v⟩]
            bm25 := s.bm25 ++ [⟨s.seq, d.page_content, serializeMeta d.metadata⟩] } := by
        simp [hybridInsertRow, hv]
      rw [hrow]
      apply ih
      rcases List.mem_cons.mp hp with hp | hp
      · exfalso
        subst hp
        exact hbad hv
      · exact ⟨p, hp, hbad⟩
    · have hrow : hybridInsertRow dims s d v = Except.error AddErr.storageError := by
        simp [hybridInsertRow, hv]
      rw [hrow]

/-- C2 — Atomicity of ingest (hybrid store): the committed state after an
`add_documents` call that returns an error is the input state (the
transaction rolls back, so zero documents of the batch are visible in the
primary table or either shadow index); a failure of the embedding
collaborator on any chunk yields the embedding-error outcome, and a failed
primary-table insert (the `vec0` trigger rejecting a wrongly-sized
embedding) yields the storage-error outcome — in both cases with the
prior state as the committed state. -/
theorem hybrid_add_documents_atomic (dims : Int) (batchSize : Nat)
    (embed : List String → Except Unit (List (List ℚ)))
    (docs : List Document) (s : HybridState) (hbs : batchSize ≠ 0) :
    (∀ (s2 : HybridState) (e : AddErr),
        hybrid_add_documents dims batchSize embed docs s = some (s2, Except.error e) →
        s2 = s) ∧
    ((∃ b ∈ chunksAux batchSize (docs.map (fun d => d.page_content)).length
          (docs.map (fun d => d.page_content)), embed b = Except.error ()) →
      hybrid_add_documents dims batchSize embed docs s
        = some (s, Except.error AddErr.embedError)) ∧
    (∀ vectors : List (List ℚ),
        embedBatches embed (chunksAux batchSize (docs.map (fun d => d.page_content)).length
          (docs.map (fun d => d.page_content))) = Except.ok vectors →
        vectors.length = docs.length →
        (∃ p ∈ docs.zip vectors, ((p.2.length : Int) ≠ dims)) →
        hybrid_add_documents dims batchSize embed docs s
          = some (s, Except.error AddErr.storageError)) := by
  refine ⟨?_, ?_, ?_⟩
  · intro s2 e h
    unfold hybrid_add_documents at h
    cases hch : chunksOpt batchSize (docs.map (fun d => d.page_content)) with
    | none =>
      rw [hch] at h
      simp only at h
      exact Option.noConfusion h
    | some batches =>
      rw [hch] at h
      simp only at h
      cases hemb : embedBatches embed batches with
      | error u =>
        rw [hemb] at h
        simp only at h
        cases h
        rfl
      | ok vectors =>
        rw [hemb] at h
        simp only at h
        by_cases hlen : vectors.length = docs.length
        · rw [if_pos hlen] at h
          cases hloop : hybridInsertLoop dims s [] (docs.zip vectors) with
          | ok p =>
            rw [hloop] at h
            simp only at h
            cases h
          | error e2 =>
            rw [hloop] at h
            simp only at h
            cases h
            rfl
        · rw [if_neg hlen] at h
          cases h
          rfl
  · intro hex
    unfold hybrid_add_documents chunksOpt
    rw [if_neg hbs]
    simp only
    rw [embedBatches_error_of_mem embed _ hex]
  · intro vectors hemb hlen hbad
    unfold hybrid_add_documents chunksOpt
    rw [if_neg hbs]
    simp only
    rw [hemb]
    simp only
    rw [if_pos hlen, hybridInsertLoop_error_of_badlen dims (docs.zip vectors) s [] hbad]

def exampleEmbedFail : List String → Except Unit (List (List ℚ)) :=
  fun _ => Except.error ()

def exampleEmbedShort : List String → Except Unit (List (List ℚ)) :=
  fun ts => Except.ok (ts.map (fun _ => [1, 0]))

/-- Witness for C2: a failing embedding collaborator aborts a concrete
one-document batch with the embedding error and the state rolls back. -/
theorem hybrid_add_documents_atomic_witness :
    hybrid_add_documents 3 1 exampleEmbedFail [exampleDoc] initialHybridState
      = some (initialHybridState, Except.error AddErr.embedError) :=
  (hybrid_add_documents_atomic 3 1 exampleEmbedFail [exampleDoc] initialHybridState
      (by simp)).2.1
    ⟨[exampleDoc.page_content], by simp [chunksAux, exampleDoc], rfl⟩

/-- C4 counterexample: a document whose embedding has length 2 against a
store of dimensionality 3 is rejected, but with the storage-error class
(the `rusqlite` error surfaced by the insert whose trigger feeds the
`vec0` fixed-length column), not with the embedding-collaborator error
class — the application code of `add_documents` performs no dimension
validation of its own. -/
theorem dimension_enforcement_counterexample :
    hybrid_add_documents 3 1 exampleEmbedShort [exampleDoc] initialHybridState
      = some (initialHybridState, Except.error AddErr.storageError) ∧
    AddErr.storageError ≠ AddErr.embedError := by
  constructor
  · rfl
  · decide

/-- C4 amended — Dimension enforcement: whenever the embedding collaborator
succeeds with one vector per document and some document's vector length
differs from the configured dimensionality, the hybrid `add_documents`
rejects the batch with a storage error (raised inside the transaction when
the insert trigger propagates the wrongly-sized embedding into the `vec0`
shadow index) and the committed state is the prior state — no row of the
batch appears in the primary table or either shadow index. -/
theorem hybrid_dimension_enforcement (dims : Int) (batchSize : Nat)
    (embed : List String → Except Unit (List (List ℚ)))
    (docs : List Document) (s : HybridState) (vectors : List (List ℚ))
    (hbs : batchSize ≠ 0)
    (hemb : embedBatches embed (chunksAux batchSize
        (docs.map (fun d => d.page_content)).length
        (docs.map (fun d => d.page_content))) = Except.ok vectors)
    (hlen : vectors.length = docs.length)
    (hbad : ∃ p ∈ docs.zip vectors, ((p.2.length : Int) ≠ dims)) :
    hybrid_add_documents dims batchSize embed docs s
      = some (s, Except.error AddErr.storageError) := by
  unfold hybrid_add_documents chunksOpt
  rw [if_neg hbs]
  simp only
  rw [hemb]
  simp only
  rw [if_pos hlen, hybridInsertLoop_error_of_badlen dims (docs.zip vectors) s [] hbad]

/-- Witness for the amended C4 at the counterexample's concrete input. -/
theorem hybrid_dimension_enforcement_witness :
    hybrid_add_documents 3 1 exampleEmbedShort [exampleDoc] initialHybridState
      = some (initialHybridState, Except.error AddErr.storageError) :=
  hybrid_dimension_enforcement 3 1 exampleEmbedShort [exampleDoc] initialHybridState
    [[1, 0]] (by simp) rfl rfl ⟨(exampleDoc, [1, 0]), by simp [chunksAux, exampleDoc], by simp⟩

/-- C8 — Schema initialization: on a fresh database a non-positive
configured dimensionality makes `initialize` fail with the schema error
class, a positive dimensionality succeeds, and any successful
initialization is idempotent — re-running it on the resulting schema
succeeds as a no-op returning the schema unchanged. -/
theorem initialize_schema_spec (dims : Int) :
    (dims ≤ 0 →
      create_table_if_not_exists dims emptySchema = Except.error SchemaErr.schemaError) ∧
    (0 < dims → ∃ sc : SchemaState,
      create_table_if_not_exists dims emptySchema = Except.ok sc) ∧
    (∀ sc sc2 : SchemaState, create_table_if_not_exists dims sc = Except.ok sc2 →
      create_table_if_not_exists dims sc2 = Except.ok sc2) := by
  refine ⟨?_, ?_, ?_⟩
  · intro hdim
    unfold create_table_if_not_exists
    simp only [emptySchema]
    rw [if_pos hdim]
  · intro hdim
    refine ⟨⟨true, some dims, true, true, true, true, true⟩, ?_⟩
    unfold create_table_if_not_exists
    simp only [emptySchema]
    rw [if_neg (by omega)]
  · intro sc sc2 h
    unfold create_table_if_not_exists at h ⊢
    cases hvt : sc.vecTable with
    | some d =>
      rw [hvt] at h
      simp only at h
      cases h
      rfl
    | none =>
      rw [hvt] at h
      simp only at h
      by_cases hdim : dims ≤ 0
      · rw [if_pos hdim] at h
        exact Except.noConfusion h
      · rw [if_neg hdim] at h
        cases h
        rfl

/-- Witness for C8: dimensionality -1 fails, 3 succeeds, and re-running on
the created schema is a no-op. -/
theorem initialize_schema_spec_witness :
    create_table_if_not_exists (-1) emptySchema = Except.error SchemaErr.schemaError ∧
    (∃ sc : SchemaState, create_table_if_not_exists 3 emptySchema = Except.ok sc) ∧
    create_table_if_not_exists 3 ⟨true, some 3, true, true, true, true, true⟩
      = Except.ok ⟨true, some 3, true, true, true, true, true⟩ :=
  ⟨(initialize_schema_spec (-1)).1 (by norm_num),
   (initialize_schema_spec 3).2.1 (by norm_num),
   (initialize_schema_spec 3).2.2 emptySchema ⟨true, some 3, true, true, true, true, true⟩ rfl⟩

/-- C7 — Keyword-extraction degradation: when the keyword-extraction
language-model collaborator fails, the hybrid (`sqlite_vss`) search
behaves exactly as if the collaborator had returned the raw query text —
the sanitized raw query drives the lexical path — and, provided the query
embedding succeeds, the search returns a normal (`Ok`) fused result: the
collaborator's failure never surfaces as an error. -/
theorem keyword_extraction_fallback (err query : String)
    (embedQuery : Except Unit (List ℚ))
    (vecSearch : List ℚ → List (Nat × ℚ))
    (ftsSearch : String → List (Nat × ℚ))
    (mainIds : List Nat) :
    vss_similarity_search (Except.error err) query embedQuery vecSearch ftsSearch mainIds
      = vss_similarity_search (Except.ok query) query embedQuery vecSearch ftsSearch mainIds ∧
    (∀ qv : List ℚ, embedQuery = Except.ok qv →
      vss_similarity_search (Except.error err) query embedQuery vecSearch ftsSearch mainIds
        = Except.ok (hybrid_fuse (vecSearch qv)
            (ftsSearch (sanitizeKeyword query)) mainIds)) := by
  constructor
  · rfl
  · intro qv h
    subst h
    rfl

/-- Witness for C7 at a concrete failing collaborator and successful
embedding. -/
theorem keyword_extraction_fallback_witness :
    vss_similarity_search (Except.error "llm unavailable") "capital of France"
        (Except.ok [1]) (fun _ => [(1, 0)]) (fun _ => [(1, -2)]) [1]
      = Except.ok (hybrid_fuse [(1, 0)] [(1, -2)] [1]) :=
  (keyword_extraction_fallback "llm unavailable" "capital of France" (Except.ok [1])
    (fun _ => [(1, 0)]) (fun _ => [(1, -2)]) [1]).2 [1] rfl

lemma mergeSort_sorted_by_ge {α : Type} (f : α → ℚ) (l : List α) :
    (l.mergeSort (fun a b => decide (f a ≥ f b))).Pairwise (fun a b => f a ≥ f b) := by
  have h := @List.sorted_mergeSort α (fun a b => decide (f a ≥ f b))
    (fun a b c h1 h2 => by
      simp only [decide_eq_true_eq] at *
      exact le_trans h2 h1)
    (fun a b => by
      simp only [Bool.or_eq_true, decide_eq_true_eq]
      exact le_total (f b) (f a)) l
  exact h.imp (fun hd => of_decide_eq_true hd)

/-- C3 — Reciprocal rank fusion: every candidate row produced by the fused
query carries the combined score `1/(60 + vec_rank) + 1/(60 + lex_rank)`
with 1-based ranks within each path's candidate list and a zero term for a
path that did not return the candidate; the result is ordered by combined
score descending; and a rowid participates exactly when at least one path
returned it (full outer join) and it exists in the primary table. -/
theorem hybrid_fuse_rrf (vecCands ftsCands : List (Nat × ℚ)) (mainIds : List Nat) :
    (∀ pr ∈ hybrid_fuse vecCands ftsCands mainIds,
        pr.2 = rrfTerm (vecCands.map (fun c => c.1)) pr.1
             + rrfTerm (ftsCands.map (fun c => c.1)) pr.1) ∧
    (hybrid_fuse vecCands ftsCands mainIds).Pairwise (fun a b => a.2 ≥ b.2) ∧
    (∀ r : Nat, (∃ c ∈ hybrid_fuse vecCands ftsCands mainIds, c.1 = r) ↔
        ((r ∈ vecCands.map (fun c => c.1) ∨ r ∈ ftsCands.map (fun c => c.1)) ∧
          r ∈ mainIds)) := by
  refine ⟨?_, ?_, ?_⟩
  · intro pr hpr
    simp only [hybrid_fuse] at hpr
    rw [List.mem_mergeSort] at hpr
    rcases List.mem_map.mp hpr with ⟨x, hx, rfl⟩
    exact add_comm _ _
  · simp only [hybrid_fuse]
    exact mergeSort_sorted_by_ge (fun p : Nat × ℚ => p.2) _
  · intro r
    simp only [hybrid_fuse]
    constructor
    · rintro ⟨c, hc, rfl⟩
      rw [List.mem_mergeSort] at hc
      rcases List.mem_map.mp hc with ⟨x, hx, rfl⟩
      simp only [List.mem_filter, decide_eq_true_eq] at hx
      obtain ⟨hjoin, hmain⟩ := hx
      refine ⟨?_, hmain⟩
      rcases List.mem_append.mp hjoin with h | h
      · right
        exact h
      · left
        exact (List.mem_filter.mp h).1
    · rintro ⟨hvf, hmain⟩
      have hjoin : r ∈ (ftsCands.map (fun c => c.1)) ++
          (vecCands.map (fun c => c.1)).filter
            (fun t => !(decide (t ∈ ftsCands.map (fun c => c.1)))) := by
        by_cases hfts : r ∈ ftsCands.map (fun c => c.1)
        · exact List.mem_append.mpr (Or.inl hfts)
        · rcases hvf with hv | hf
          · exact List.mem_append.mpr (Or.inr (List.mem_filter.mpr ⟨hv, by simp [hfts]⟩))
          · exact absurd hf hfts
      refine ⟨(r, rrfTerm (ftsCands.map (fun c => c.1)) r
          + rrfTerm (vecCands.map (fun c => c.1)) r), ?_, rfl⟩
      rw [List.mem_mergeSort]
      exact List.mem_map.mpr ⟨r, List.mem_filter.mpr ⟨hjoin, by simp [hmain]⟩, rfl⟩

lemma dedupDocs_subset (l : List Document) :
    ∀ seen : List String, ∀ d ∈ dedupDocs seen l, d ∈ l := by
  induction l with
  | nil =>
    intro seen d hd
    exact absurd hd (List.not_mem_nil d)
  | cons a tl ih =>
    intro seen d hd
    simp only [dedupDocs] at hd
    by_cases hk : docDedupKey a ∈ seen
    · rw [if_pos (by simpa using hk)] at hd
      exact List.mem_cons_of_mem a (ih seen d hd)
    · rw [if_neg (by simpa using hk)] at hd
      rcases List.mem_cons.mp hd with hd | hd
      · exact hd ▸ List.mem_cons_self a tl
      · exact List.mem_cons_of_mem a (ih _ d hd)

lemma dedupDocs_keys (l : List Document) :
    ∀ seen : List String,
    (dedupDocs seen l).Pairwise (fun a b => docDedupKey a ≠ docDedupKey b) ∧
    (∀ d ∈ dedupDocs seen l, docDedupKey d ∉ seen) := by
  induction l with
  | nil =>
    intro seen
    exact ⟨List.Pairwise.nil, fun d hd => absurd hd (List.not_mem_nil d)⟩
  | cons a tl ih =>
    intro seen
    simp only [dedupDocs]
    by_cases hk : docDedupKey a ∈ seen
    · rw [if_pos (by simpa using hk)]
      exact ih seen
    · rw [if_neg (by simpa using hk)]
      obtain ⟨hpw, hout⟩ := ih (docDedupKey a :: seen)
      constructor
      · refine List.Pairwise.cons ?_ hpw
        intro d hd
        have hmem := hout d hd
        simp only [List.mem_cons, not_or] at hmem
        exact fun he => hmem.1 he.symm
      · intro d hd
        rcases List.mem_cons.mp hd with hd | hd
        · subst hd
          exact hk
        · have hmem := hout d hd
          simp only [List.mem_cons, not_or] at hmem
          exact hmem.2

/-- C6 — Vector search algorithm: `similarity_search` of the hybrid (and
`sqlite_vec`) store asks the index for at most `2 * limit` candidate rows,
maps each kept row's distance to `score = 1 / (1 + distance)`, removes
duplicates by (content, metadata) identity, re-sorts by score descending
and truncates — so the result holds at most `limit` documents, pairwise
distinct as (content, metadata) pairs, ordered by descending score, each
arising from a fetched candidate row with the stated score formula. -/
theorem hybrid_similarity_search_spec (rows : List VRow) (limit : Nat) :
    (hybrid_similarity_search rows limit).length ≤ limit ∧
    (hybrid_similarity_search rows limit).Pairwise
      (fun a b => a.page_content ≠ b.page_content ∨ a.metadata ≠ b.metadata) ∧
    (hybrid_similarity_search rows limit).Pairwise (fun a b => a.score ≥ b.score) ∧
    (∀ d ∈ hybrid_similarity_search rows limit, ∃ vr ∈ rows.take (limit * 2),
        d = ⟨vr.text, vr.metadata, 1 / (1 + vr.distance)⟩) := by
  refine ⟨?_, ?_, ?_, ?_⟩
  · simp only [hybrid_similarity_search]
    exact List.length_take_le _ _
  · simp only [hybrid_similarity_search]
    have hpw := (dedupDocs_keys
      ((rows.take (limit * 2)).map (fun r => ⟨r.text, r.metadata, 1 / (1 + r.distance)⟩)) []).1
    have hpw2 := hpw.perm
      (List.mergeSort_perm _ (fun a b : Document => decide (a.score ≥ b.score))).symm
      (fun hxy => fun he => hxy he.symm)
    have hpw3 := List.Pairwise.sublist (List.take_sublist limit _) hpw2
    refine hpw3.imp ?_
    intro a b hne
    by_contra hcon
    push_neg at hcon
    exact hne (by rw [docDedupKey, docDedupKey, hcon.1, hcon.2])
  · simp only [hybrid_similarity_search]
    exact List.Pairwise.sublist (List.take_sublist limit _)
      (mergeSort_sorted_by_ge (fun d : Document => d.score) _)
  · intro d hd
    simp only [hybrid_similarity_search] at hd
    have hd2 := List.mem_of_mem_take hd
    rw [List.mem_mergeSort] at hd2
    have hd3 := dedupDocs_subset _ [] d hd2
    rcases List.mem_map.mp hd3 with ⟨vr, hvr, rfl⟩
    exact ⟨vr, hvr, rfl⟩
